import Mathlib

/-!
Verification of the key-extraction pipeline of mfc_extract_keys.c: the dump
layout decoder (size check, UID read, trailer walk over sector key pairs) and
the two key encoders (mfocGUI paired buffers and Proxmark linear buffer). The
dump is modelled as a list of byte values; file reads at an offset become
take-after-drop on that list; the decode loop becomes a fuel recursion whose
cursor arithmetic copies the fseek offsets of the source loop. The file-system
side effects of write_keys are modelled as an event trace parameterised by the
outcomes of fopen and fwrite.
-/

namespace MfcKeys

/-! Constants of the source. -/

abbrev UID_SIZE : Nat := 8
abbrev KEY_SIZE : Nat := 6
abbrev KEYS_1K : Nat := 16
abbrev KEYS_4K : Nat := 40
abbrev FILE_SIZE_1K : Nat := 1024
abbrev FILE_SIZE_4K : Nat := 4096

/-- bytes_to_num of the source: big-endian fold of the given bytes. -/
def bytes_to_num (src : List Nat) : Nat :=
  src.foldl (fun num b => (num <<< 8) ||| b) 0

/-- Card density, determined solely by the dump length. -/
inductive Density where
  | OneK : Density
  | FourK : Density
deriving DecidableEq

/-- The size bits the source ors into options: 0x61 for 1K, 0xF4 for 4K. -/
def Density.sizeOptions : Density → Nat
  | .OneK => 0x61
  | .FourK => 0xF4

/-- The key-region byte count the source recovers as options AND 0xF0. -/
def Density.keyRegionBytes (d : Density) : Nat := d.sizeOptions &&& 0xF0

/-- Number of trailer blocks read for this density (the loop bound). -/
def Density.trailerCount : Density → Nat
  | .OneK => KEYS_1K
  | .FourK => KEYS_4K

/-- One sector key pair: 6 bytes of key A and 6 bytes of key B. -/
structure SectorKeyPair where
  keyA : List Nat
  keyB : List Nat
deriving DecidableEq

/-- The decoded key table: raw 8-byte UID field, density, ordered pairs. -/
structure KeyTable where
  uid : List Nat
  density : Density
  pairs : List SectorKeyPair
deriving DecidableEq

inductive DecodeError where
  | invalidSize : DecodeError
deriving DecidableEq

/-- Reading len bytes at absolute position pos of the dump. -/
def readAt (dump : List Nat) (pos len : Nat) : List Nat :=
  (dump.drop pos).take len

/-- The gap the source seeks over after trailer i: 0x30 while i < 31, else
0xF0, the threshold independent of density. -/
def stride (i : Nat) : Nat := if i < 31 then 0x30 else 0xF0

/-- The decode loop of main: at cursor pos and trailer index i with fuel
iterations left, read 6 bytes of key A, skip 4 access bytes, read 6 bytes of
key B, then move the cursor past the gap to the next trailer. -/
def extractFrom (dump : List Nat) : Nat → Nat → Nat → List SectorKeyPair
  | _, _, 0 => []
  | pos, i, fuel + 1 =>
      { keyA := readAt dump pos KEY_SIZE
        keyB := readAt dump (pos + KEY_SIZE + 4) KEY_SIZE } ::
        extractFrom dump (pos + KEY_SIZE + 4 + KEY_SIZE + stride i) (i + 1) fuel

/-- Absolute cursor position of trailer i: first trailer at 0x30, each next
one 16 read bytes plus the stride gap further. -/
def trailerPos : Nat → Nat
  | 0 => 0x30
  | i + 1 => trailerPos i + KEY_SIZE + 4 + KEY_SIZE + stride i

/-- The decoder: the size check of main (options AND 0x05) followed by the
UID read and the trailer walk starting at 0x30. -/
def decode (dump : List Nat) : Except DecodeError KeyTable :=
  if dump.length = FILE_SIZE_1K then
    .ok { uid := readAt dump 0 UID_SIZE
          density := .OneK
          pairs := extractFrom dump 0x30 0 KEYS_1K }
  else if dump.length = FILE_SIZE_4K then
    .ok { uid := readAt dump 0 UID_SIZE
          density := .FourK
          pairs := extractFrom dump 0x30 0 KEYS_4K }
  else
    .error .invalidSize

/-- The a_keys buffer: key A bytes appended in sector order, as the aptr
writes of the source loop. -/
def gui_a (t : KeyTable) : List Nat :=
  t.pairs.foldl (fun acc p => acc ++ p.keyA) []

/-- The b_keys buffer: key B bytes appended in sector order. -/
def gui_b (t : KeyTable) : List Nat :=
  t.pairs.foldl (fun acc p => acc ++ p.keyB) []

/-- The mfocGUI encoder: the pair of the a_keys and b_keys buffers. -/
def encode_gui (t : KeyTable) : List Nat × List Nat := (gui_a t, gui_b t)

/-- The Proxmark encoder: a_keys then b_keys in one buffer, as the two
memmove calls of the source build it. -/
def encode_linear (t : KeyTable) : List Nat := gui_a t ++ gui_b t

/-- Hex digit character, lowercase, as printf %x produces. -/
def hexDigit (n : Nat) : Char :=
  if n < 10 then Char.ofNat (48 + n) else Char.ofNat (87 + n)

/-- Zero-padded 8-hex-digit rendering, as sprintf %08lx for a 4-byte value. -/
def toHexPad8 (n : Nat) : String :=
  String.mk ((List.range 8).map fun k => hexDigit (n / 16 ^ (7 - k) % 16))

/-- The numeric UID: bytes_to_num over the first 4 bytes of the UID field. -/
def uidNum (t : KeyTable) : Nat := bytes_to_num (t.uid.take 4)

/-- Output mode selected by the -m / -p flags. -/
inductive Mode where
  | mfocGUI : Mode
  | proxmark : Mode
deriving DecidableEq

/-- One output file: its name and its bytes. -/
structure FileWrite where
  filename : String
  contents : List Nat
deriving DecidableEq

/-- The output files main produces after a successful decode: mode -m writes
a<uid>.dump then b<uid>.dump, mode -p writes <uid>.bin holding a_keys then
b_keys; a failed decode writes nothing. -/
def run (mode : Mode) (dump : List Nat) : List FileWrite :=
  match decode dump with
  | .error _ => []
  | .ok t =>
      match mode with
      | .mfocGUI =>
          [ { filename := "a" ++ toHexPad8 (uidNum t) ++ ".dump"
              contents := gui_a t },
            { filename := "b" ++ toHexPad8 (uidNum t) ++ ".dump"
              contents := gui_b t } ]
      | .proxmark =>
          [ { filename := toHexPad8 (uidNum t) ++ ".bin"
              contents := gui_a t ++ gui_b t } ]

/-! File-handle event model for write_keys. -/

inductive FsEvent where
  | openOut : String → FsEvent
  | writeOut : String → FsEvent
  | closeOut : String → FsEvent
deriving DecidableEq

/-- Event trace and return value of write_keys, as a function of the outcomes
of the external fopen and fwrite calls: fopen failure returns 1 with no events;
fwrite failure returns 1 after the open, with no close; success opens, writes,
closes and returns 0. This copies the control flow of the source verbatim. -/
def write_keys_trace (fopenOk fwriteOk : Bool) (filename : String) :
    List FsEvent × Nat :=
  if fopenOk = false then ([], 1)
  else if fwriteOk = false then ([.openOut filename], 1)
  else ([.openOut filename, .writeOut filename, .closeOut filename], 0)

/-- Count of output-handle opens in a trace. -/
def opensOut (tr : List FsEvent) : Nat :=
  tr.countP fun e => match e with | .openOut _ => true | _ => false

/-- Count of output-handle closes in a trace. -/
def closesOut (tr : List FsEvent) : Nat :=
  tr.countP fun e => match e with | .closeOut _ => true | _ => false

/-- Well-formed key table: the pair count fixed by the density, every key
exactly 6 bytes. -/
def KeyTable.wf (t : KeyTable) : Prop :=
  t.pairs.length = t.density.trailerCount ∧
    ∀ p ∈ t.pairs, p.keyA.length = KEY_SIZE ∧ p.keyB.length = KEY_SIZE

instance (t : KeyTable) : Decidable t.wf :=
  inferInstanceAs (Decidable (t.pairs.length = t.density.trailerCount ∧
    ∀ p ∈ t.pairs, p.keyA.length = KEY_SIZE ∧ p.keyB.length = KEY_SIZE))

/-- The scenario dump: 1024 bytes, UID field DE AD BE EF at offset 0, sector-0
trailer A1A2A3A4A5A6 FFFF0780 B1B2B3B4B5B6 at offset 0x30, zeros elsewhere. -/
def scenarioDump : List Nat :=
  (List.range 1024).map fun k =>
    if k = 0 then 0xDE else if k = 1 then 0xAD
    else if k = 2 then 0xBE else if k = 3 then 0xEF
    else if k = 0x30 then 0xA1 else if k = 0x31 then 0xA2
    else if k = 0x32 then 0xA3 else if k = 0x33 then 0xA4
    else if k = 0x34 then 0xA5 else if k = 0x35 then 0xA6
    else if k = 0x36 then 0xFF else if k = 0x37 then 0xFF
    else if k = 0x38 then 0x07 else if k = 0x39 then 0x80
    else if k = 0x3A then 0xB1 else if k = 0x3B then 0xB2
    else if k = 0x3C then 0xB3 else if k = 0x3D then 0xB4
    else if k = 0x3E then 0xB5 else if k = 0x3F then 0xB6
    else 0

/-- All-zero 1K dump, used as a concrete sample input. -/
def zeroDump : List Nat := List.replicate 1024 0

/-- The key table decode yields on the all-zero 1K dump. -/
def zeroTable : KeyTable :=
  { uid := List.replicate 8 0
    density := .OneK
    pairs := List.replicate 16 { keyA := List.replicate 6 0
                                 keyB := List.replicate 6 0 } }

instance {ε α : Type} [DecidableEq ε] [DecidableEq α] : DecidableEq (Except ε α) :=
  fun a b =>
    match a, b with
    | .ok x, .ok y =>
        if h : x = y then isTrue (congrArg Except.ok h)
        else isFalse (fun hh => h (Except.ok.inj hh))
    | .error x, .error y =>
        if h : x = y then isTrue (congrArg Except.error h)
        else isFalse (fun hh => h (Except.error.inj hh))
    | .ok _, .error _ => isFalse (fun hh => Except.noConfusion hh)
    | .error _, .ok _ => isFalse (fun hh => Except.noConfusion hh)

/-! Helper lemmas. -/

theorem extractFrom_length (dump : List Nat) :
    ∀ (fuel pos i : Nat), (extractFrom dump pos i fuel).length = fuel := by
  intro fuel
  induction fuel with
  | zero => intro pos i; rfl
  | succ n ih => intro pos i; simp [extractFrom, ih]

theorem extractFrom_getElem? (dump : List Nat) :
    ∀ (fuel i j : Nat), j < fuel →
      (extractFrom dump (trailerPos i) i fuel)[j]? =
        some { keyA := readAt dump (trailerPos (i + j)) KEY_SIZE
               keyB := readAt dump (trailerPos (i + j) + KEY_SIZE + 4) KEY_SIZE } := by
  intro fuel
  induction fuel with
  | zero => intro i j h; exact absurd h (Nat.not_lt_zero j)
  | succ n ih =>
      intro i j hj
      cases j with
      | zero => simp [extractFrom]
      | succ j =>
          have h1 : trailerPos i + KEY_SIZE + 4 + KEY_SIZE + stride i
              = trailerPos (i + 1) := rfl
          have h2 : i + (j + 1) = (i + 1) + j := by omega
          simp only [extractFrom, List.getElem?_cons_succ]
          rw [h1, h2]
          exact ih (i + 1) j (Nat.lt_of_succ_lt_succ hj)

theorem decode_ok_cases (dump : List Nat) (t : KeyTable)
    (ht : decode dump = .ok t) :
    t.uid = readAt dump 0 UID_SIZE ∧
    ((dump.length = FILE_SIZE_1K ∧ t.density = .OneK ∧
        t.pairs = extractFrom dump 0x30 0 KEYS_1K) ∨
     (dump.length = FILE_SIZE_4K ∧ t.density = .FourK ∧
        t.pairs = extractFrom dump 0x30 0 KEYS_4K)) := by
  unfold decode at ht
  split_ifs at ht with h1 h2
  · have h := (Except.ok.inj ht).symm
    subst h
    exact ⟨rfl, Or.inl ⟨h1, rfl, rfl⟩⟩
  · have h := (Except.ok.inj ht).symm
    subst h
    exact ⟨rfl, Or.inr ⟨h2, rfl, rfl⟩⟩

theorem readAt_length (dump : List Nat) (pos len : Nat)
    (h : pos + len ≤ dump.length) : (readAt dump pos len).length = len := by
  unfold readAt
  rw [List.length_take, List.length_drop]
  exact Nat.min_eq_left (by omega)

theorem trailerPos_bound_1k :
    ∀ j, j < KEYS_1K → trailerPos j + 2 * KEY_SIZE + 4 ≤ FILE_SIZE_1K := by decide

theorem trailerPos_bound_4k :
    ∀ j, j < KEYS_4K → trailerPos j + 2 * KEY_SIZE + 4 ≤ FILE_SIZE_4K := by decide

theorem extract_keys_sized (dump : List Nat) (n : Nat)
    (hb : ∀ j, j < n → trailerPos j + 2 * KEY_SIZE + 4 ≤ dump.length) :
    ∀ p ∈ extractFrom dump 0x30 0 n,
      p.keyA.length = KEY_SIZE ∧ p.keyB.length = KEY_SIZE := by
  intro p hp
  rw [List.mem_iff_getElem?] at hp
  obtain ⟨j, hj⟩ := hp
  have hjn : j < n := by
    by_contra hge
    have hnone : (extractFrom dump 0x30 0 n)[j]? = none :=
      List.getElem?_eq_none (by rw [extractFrom_length]; omega)
    rw [hnone] at hj
    exact Option.noConfusion hj
  rw [show (0x30 : Nat) = trailerPos 0 from rfl] at hj
  rw [extractFrom_getElem? dump n 0 j hjn] at hj
  have hb' := hb j hjn
  cases Option.some.inj hj
  constructor
  · apply readAt_length
    simp only [Nat.zero_add]
    omega
  · apply readAt_length
    simp only [Nat.zero_add]
    omega

theorem foldl_append_eq_join (f : SectorKeyPair → List Nat) :
    ∀ (l : List SectorKeyPair) (acc : List Nat),
      l.foldl (fun acc p => acc ++ f p) acc = acc ++ (l.map f).flatten := by
  intro l
  induction l with
  | nil => intro acc; simp
  | cons x xs ih => intro acc; simp [ih, List.append_assoc]

theorem join_map_length (f : SectorKeyPair → List Nat) :
    ∀ (l : List SectorKeyPair), (∀ p ∈ l, (f p).length = KEY_SIZE) →
      ((l.map f).flatten).length = KEY_SIZE * l.length := by
  intro l
  induction l with
  | nil => intro _; simp
  | cons x xs ih =>
      intro h
      simp only [List.map_cons, List.flatten_cons, List.length_append, List.length_cons]
      rw [h x (List.mem_cons_self x xs), ih (fun p hp => h p (List.mem_cons_of_mem x hp))]
      rw [Nat.mul_succ, Nat.add_comm]

theorem gui_a_eq_join (t : KeyTable) :
    gui_a t = (t.pairs.map SectorKeyPair.keyA).flatten := by
  unfold gui_a
  rw [foldl_append_eq_join]
  simp

theorem gui_b_eq_join (t : KeyTable) :
    gui_b t = (t.pairs.map SectorKeyPair.keyB).flatten := by
  unfold gui_b
  rw [foldl_append_eq_join]
  simp

theorem keyRegion_eq (d : Density) :
    d.keyRegionBytes = KEY_SIZE * d.trailerCount := by
  cases d <;> rfl

theorem gui_lengths_of_sized (t : KeyTable)
    (hkeys : ∀ p ∈ t.pairs, p.keyA.length = KEY_SIZE ∧ p.keyB.length = KEY_SIZE) :
    (gui_a t).length = KEY_SIZE * t.pairs.length ∧
    (gui_b t).length = KEY_SIZE * t.pairs.length := by
  constructor
  · rw [gui_a_eq_join]
    exact join_map_length _ _ (fun p hp => (hkeys p hp).1)
  · rw [gui_b_eq_join]
    exact join_map_length _ _ (fun p hp => (hkeys p hp).2)

/-! Claim theorems. -/

/-- C1: for every valid dump the decoder walks the trailer blocks as
specified: the cursor starts at 0x30 (trailerPos 0), and the decoded pair at
index i holds the 6 bytes at the cursor as key A and, after the 4 skipped
access-condition bytes, the next 6 bytes as key B, the cursor advancing past
the gap to the next trailer by 0x30 bytes when i < 31 and by 0xF0 bytes
otherwise (the stride of trailerPos), the threshold independent of density:
both density branches below use the same trailerPos. -/
theorem decode_trailer_walk (dump : List Nat) (t : KeyTable)
    (ht : decode dump = Except.ok t) :
    ∀ i, i < t.pairs.length →
      t.pairs[i]? =
        some { keyA := readAt dump (trailerPos i) KEY_SIZE
               keyB := readAt dump (trailerPos i + KEY_SIZE + 4) KEY_SIZE } := by
  intro i hi
  obtain ⟨-, hcase⟩ := decode_ok_cases dump t ht
  rcases hcase with ⟨-, -, hp⟩ | ⟨-, -, hp⟩
  · rw [hp] at hi ⊢
    rw [extractFrom_length] at hi
    rw [show (0x30 : Nat) = trailerPos 0 from rfl,
        extractFrom_getElem? dump KEYS_1K 0 i hi]
    simp
  · rw [hp] at hi ⊢
    rw [extractFrom_length] at hi
    rw [show (0x30 : Nat) = trailerPos 0 from rfl,
        extractFrom_getElem? dump KEYS_4K 0 i hi]
    simp

set_option maxRecDepth 100000 in
theorem decode_trailer_walk_witness :
    zeroTable.pairs[0]? =
      some { keyA := readAt zeroDump (trailerPos 0) KEY_SIZE
             keyB := readAt zeroDump (trailerPos 0 + KEY_SIZE + 4) KEY_SIZE } :=
  decode_trailer_walk zeroDump zeroTable (by decide) 0 (by decide)

/-- C2: every 1024-byte input decodes to a table of exactly 16 pairs and
every 4096-byte input to exactly 40 pairs, each key A and key B being exactly
6 bytes. -/
theorem decode_counts (dump : List Nat) :
    (dump.length = FILE_SIZE_1K →
       ∃ t, decode dump = Except.ok t ∧ t.pairs.length = KEYS_1K ∧
         ∀ p ∈ t.pairs, p.keyA.length = KEY_SIZE ∧ p.keyB.length = KEY_SIZE) ∧
    (dump.length = FILE_SIZE_4K →
       ∃ t, decode dump = Except.ok t ∧ t.pairs.length = KEYS_4K ∧
         ∀ p ∈ t.pairs, p.keyA.length = KEY_SIZE ∧ p.keyB.length = KEY_SIZE) := by
  constructor
  · intro h
    refine ⟨{ uid := readAt dump 0 UID_SIZE, density := .OneK,
              pairs := extractFrom dump 0x30 0 KEYS_1K }, ?_, ?_, ?_⟩
    · unfold decode
      rw [if_pos h]
    · exact extractFrom_length dump KEYS_1K 0x30 0
    · show ∀ p ∈ extractFrom dump 0x30 0 KEYS_1K, _ ∧ _
      apply extract_keys_sized
      intro j hj
      rw [h]
      exact trailerPos_bound_1k j hj
  · intro h
    have hne : dump.length ≠ FILE_SIZE_1K := by rw [h]; decide
    refine ⟨{ uid := readAt dump 0 UID_SIZE, density := .FourK,
              pairs := extractFrom dump 0x30 0 KEYS_4K }, ?_, ?_, ?_⟩
    · unfold decode
      rw [if_neg hne, if_pos h]
    · exact extractFrom_length dump KEYS_4K 0x30 0
    · show ∀ p ∈ extractFrom dump 0x30 0 KEYS_4K, _ ∧ _
      apply extract_keys_sized
      intro j hj
      rw [h]
      exact trailerPos_bound_4k j hj

theorem decode_counts_witness :
    ∃ t, decode (List.replicate 4096 0) = Except.ok t ∧
      t.pairs.length = KEYS_4K ∧
      ∀ p ∈ t.pairs, p.keyA.length = KEY_SIZE ∧ p.keyB.length = KEY_SIZE :=
  (decode_counts (List.replicate 4096 0)).2 (by rw [List.length_replicate])

/-- C3: on any input whose length is neither 1024 nor 4096, decode fails with
invalidSize, the pipeline writes no output files, and the decode result
depends only on the length, not on the dump contents. -/
theorem decode_invalid_size (dump : List Nat) (mode : Mode)
    (h1 : dump.length ≠ FILE_SIZE_1K) (h2 : dump.length ≠ FILE_SIZE_4K) :
    decode dump = Except.error DecodeError.invalidSize ∧
    run mode dump = [] ∧
    ∀ dump2 : List Nat, dump2.length = dump.length →
      decode dump2 = decode dump := by
  have hd : decode dump = Except.error DecodeError.invalidSize := by
    unfold decode
    rw [if_neg h1, if_neg h2]
  refine ⟨hd, ?_, ?_⟩
  · unfold run
    rw [hd]
  · intro d2 hlen
    have hd2 : decode d2 = Except.error DecodeError.invalidSize := by
      unfold decode
      rw [hlen, if_neg h1, if_neg h2]
    rw [hd2, hd]

set_option maxRecDepth 100000 in
theorem decode_invalid_size_witness :
    decode (List.replicate 500 0) = Except.error DecodeError.invalidSize ∧
    run Mode.mfocGUI (List.replicate 500 0) = [] ∧
    ∀ dump2 : List Nat, dump2.length = (List.replicate 500 (0 : Nat)).length →
      decode dump2 = decode (List.replicate 500 0) :=
  decode_invalid_size (List.replicate 500 0) Mode.mfocGUI (by decide) (by decide)

/-- C4: for every well-formed key table, encode_linear is the concatenation
of all key A values in sector order followed by all key B values in sector
order, of total length 2 times keyRegionBytes (192 bytes for 1K, 480 for
4K). -/
theorem encode_linear_spec (t : KeyTable) (h : t.wf) :
    encode_linear t =
      (t.pairs.map SectorKeyPair.keyA).flatten ++
        (t.pairs.map SectorKeyPair.keyB).flatten ∧
    (encode_linear t).length = 2 * t.density.keyRegionBytes := by
  obtain ⟨hcount, hkeys⟩ := h
  obtain ⟨hla, hlb⟩ := gui_lengths_of_sized t hkeys
  constructor
  · unfold encode_linear
    rw [gui_a_eq_join, gui_b_eq_join]
  · unfold encode_linear
    rw [List.length_append, hla, hlb, hcount, keyRegion_eq]
    omega

set_option maxRecDepth 100000 in
theorem encode_linear_spec_witness :
    encode_linear zeroTable =
      (zeroTable.pairs.map SectorKeyPair.keyA).flatten ++
        (zeroTable.pairs.map SectorKeyPair.keyB).flatten ∧
    (encode_linear zeroTable).length = 2 * zeroTable.density.keyRegionBytes :=
  encode_linear_spec zeroTable (by decide)

/-- C5: for every well-formed key table, the concatenation of the two
encode_gui buffers is exactly all key A bytes then all key B bytes read from
the pairs in order, and coincides with the encode_linear output. -/
theorem encode_gui_concat (t : KeyTable) (h : t.wf) :
    (encode_gui t).1 ++ (encode_gui t).2 =
      (t.pairs.map SectorKeyPair.keyA).flatten ++
        (t.pairs.map SectorKeyPair.keyB).flatten ∧
    (encode_gui t).1 ++ (encode_gui t).2 = encode_linear t := by
  refine ⟨?_, rfl⟩
  show gui_a t ++ gui_b t = _
  rw [gui_a_eq_join, gui_b_eq_join]

set_option maxRecDepth 100000 in
theorem encode_gui_concat_witness :
    (encode_gui zeroTable).1 ++ (encode_gui zeroTable).2 =
      (zeroTable.pairs.map SectorKeyPair.keyA).flatten ++
        (zeroTable.pairs.map SectorKeyPair.keyB).flatten ∧
    (encode_gui zeroTable).1 ++ (encode_gui zeroTable).2 =
      encode_linear zeroTable :=
  encode_gui_concat zeroTable (by decide)

set_option maxRecDepth 100000 in
/-- C6: on the 1024-byte dump with UID bytes DE AD BE EF and sector-0 trailer
A1A2A3A4A5A6 FFFF0780 B1B2B3B4B5B6 at offset 0x30, pair 0 decodes to key A
A1A2A3A4A5A6 and key B B1B2B3B4B5B6, and the GUI encoder path produces the
filenames adeadbeef.dump and bdeadbeef.dump. -/
theorem scenario_1k :
    ((decode scenarioDump).map fun t => t.pairs[0]?) =
      Except.ok (some { keyA := [0xA1, 0xA2, 0xA3, 0xA4, 0xA5, 0xA6]
                        keyB := [0xB1, 0xB2, 0xB3, 0xB4, 0xB5, 0xB6] }) ∧
    (run Mode.mfocGUI scenarioDump).map FileWrite.filename =
      ["adeadbeef.dump", "bdeadbeef.dump"] := by
  constructor
  · decide
  · decide

/-- C7: for every well-formed key table the encode_linear output is exactly
twice as long as the a-buffer of encode_gui, and the two encode_gui buffers
both have length keyRegionBytes. -/
theorem encode_lengths (t : KeyTable) (h : t.wf) :
    (encode_linear t).length = 2 * (encode_gui t).1.length ∧
    (encode_gui t).1.length = (encode_gui t).2.length ∧
    (encode_gui t).1.length = t.density.keyRegionBytes := by
  obtain ⟨hcount, hkeys⟩ := h
  obtain ⟨hla, hlb⟩ := gui_lengths_of_sized t hkeys
  refine ⟨?_, ?_, ?_⟩
  · show (gui_a t ++ gui_b t).length = 2 * (gui_a t).length
    rw [List.length_append, hla, hlb]
    omega
  · show (gui_a t).length = (gui_b t).length
    rw [hla, hlb]
  · show (gui_a t).length = t.density.keyRegionBytes
    rw [hla, hcount, keyRegion_eq]

set_option maxRecDepth 100000 in
theorem encode_lengths_witness :
    (encode_linear zeroTable).length = 2 * (encode_gui zeroTable).1.length ∧
    (encode_gui zeroTable).1.length = (encode_gui zeroTable).2.length ∧
    (encode_gui zeroTable).1.length = zeroTable.density.keyRegionBytes :=
  encode_lengths zeroTable (by decide)

/-- C8: both encoders are deterministic pure functions: byte-identical key
tables yield byte-identical encode_gui buffer pairs and byte-identical
encode_linear buffers; as total Lean functions they perform no effects and
cannot fail. -/
theorem encoders_deterministic (t₁ t₂ : KeyTable) (h : t₁ = t₂) :
    encode_gui t₁ = encode_gui t₂ ∧ encode_linear t₁ = encode_linear t₂ := by
  subst h
  exact ⟨rfl, rfl⟩

theorem encoders_deterministic_witness :
    encode_gui zeroTable = encode_gui zeroTable ∧
    encode_linear zeroTable = encode_linear zeroTable :=
  encoders_deterministic zeroTable zeroTable rfl

/-- C9: the claim that every opened handle is closed on every exit path fails
on the code: when fopen succeeds and fwrite then fails, write_keys returns 1
straight away and the trace holds an open of the output handle but no close.
This theorem evaluates the write_keys trace at that failing input. -/
theorem write_keys_fwrite_leak :
    (write_keys_trace true false "adeadbeef.dump").1 =
      [FsEvent.openOut "adeadbeef.dump"] ∧
    opensOut (write_keys_trace true false "adeadbeef.dump").1 = 1 ∧
    closesOut (write_keys_trace true false "adeadbeef.dump").1 = 0 ∧
    (write_keys_trace true false "adeadbeef.dump").2 = 1 ∧
    opensOut (write_keys_trace true true "adeadbeef.dump").1 =
      closesOut (write_keys_trace true true "adeadbeef.dump").1 := by
  decide

/-- C10: every byte the decoder reads lies inside the dump: each of the
trailerCount reads of 16 bytes starts at trailerPos i and ends inside the
dump, the last one ending exactly at the dump length (byte 1023 of a 1K dump,
byte 4095 of a 4K dump), and the key bytes fill each of the a and b buffers
of size keyRegionBytes exactly. -/
theorem decode_reads_in_bounds (dump : List Nat) (t : KeyTable)
    (ht : decode dump = Except.ok t) :
    (∀ i, i < t.pairs.length →
       trailerPos i + 2 * KEY_SIZE + 4 ≤ dump.length) ∧
    trailerPos (t.pairs.length - 1) + 2 * KEY_SIZE + 4 = dump.length ∧
    (gui_a t).length = t.density.keyRegionBytes ∧
    (gui_b t).length = t.density.keyRegionBytes := by
  obtain ⟨-, hcase⟩ := decode_ok_cases dump t ht
  rcases hcase with ⟨hlen, hd, hp⟩ | ⟨hlen, hd, hp⟩
  · have hcnt : t.pairs.length = KEYS_1K := by rw [hp, extractFrom_length]
    have hkeys : ∀ p ∈ t.pairs,
        p.keyA.length = KEY_SIZE ∧ p.keyB.length = KEY_SIZE := by
      rw [hp]
      apply extract_keys_sized
      intro j hj
      rw [hlen]
      exact trailerPos_bound_1k j hj
    obtain ⟨hla, hlb⟩ := gui_lengths_of_sized t hkeys
    refine ⟨?_, ?_, ?_, ?_⟩
    · intro i hi
      rw [hcnt] at hi
      rw [hlen]
      exact trailerPos_bound_1k i hi
    · rw [hcnt, hlen]
      decide
    · rw [hla, hcnt, hd, keyRegion_eq]
      rfl
    · rw [hlb, hcnt, hd, keyRegion_eq]
      rfl
  · have hcnt : t.pairs.length = KEYS_4K := by rw [hp, extractFrom_length]
    have hkeys : ∀ p ∈ t.pairs,
        p.keyA.length = KEY_SIZE ∧ p.keyB.length = KEY_SIZE := by
      rw [hp]
      apply extract_keys_sized
      intro j hj
      rw [hlen]
      exact trailerPos_bound_4k j hj
    obtain ⟨hla, hlb⟩ := gui_lengths_of_sized t hkeys
    refine ⟨?_, ?_, ?_, ?_⟩
    · intro i hi
      rw [hcnt] at hi
      rw [hlen]
      exact trailerPos_bound_4k i hi
    · rw [hcnt, hlen]
      decide
    · rw [hla, hcnt, hd, keyRegion_eq]
      rfl
    · rw [hlb, hcnt, hd, keyRegion_eq]
      rfl

set_option maxRecDepth 100000 in
theorem decode_reads_in_bounds_witness :
    (∀ i, i < zeroTable.pairs.length →
       trailerPos i + 2 * KEY_SIZE + 4 ≤ zeroDump.length) ∧
    trailerPos (zeroTable.pairs.length - 1) + 2 * KEY_SIZE + 4 =
      zeroDump.length ∧
    (gui_a zeroTable).length = zeroTable.density.keyRegionBytes ∧
    (gui_b zeroTable).length = zeroTable.density.keyRegionBytes :=
  decode_reads_in_bounds zeroDump zeroTable (by decide)

end MfcKeys
